import Mathlib

set_option maxRecDepth 1000000

/-!
Verification of the efloat repository (EFloat32 interval-tracked float).

An `f32` value is embedded as its IEEE-754 bit pattern, a `Nat` below `2 ^ 32`.
Every finite f32 value is an integer multiple of `2 ^ (-149)`, so a pattern is
decoded by `sval`, the real value scaled by `2 ^ 149`, an integer.  The
infinity patterns decode to `± 2 ^ 277` (that is, `± 2 ^ 128` before scaling),
which lies strictly beyond every finite value and hence yields the correct
IEEE comparison order.  All floating-point operations used by the claims
(`+`, `-`, `/`, `%`, `trunc`, `fract`, `abs`, `neg`, `min`, `max`, comparisons)
are defined bit-exactly; inexact operations round to nearest, ties to even,
with gradual underflow and overflow to infinity, implemented on integer
fractions.

The repository contains two snapshots of the same code (`src/lib.rs` and
`src/efloat32.rs`); functions that differ between them carry `_lib` / `_ef`
suffixes.
-/

/-- Scaled value of a magnitude pattern `p` (sign bit stripped): the decoded
value times `2 ^ 149`.  Subnormals (`exponent field 0`) are worth `p` steps of
`2 ^ (-149)`; a normal pattern with exponent field `e` and mantissa `m` is
worth `(2 ^ 23 + m) * 2 ^ (e - 1)` such steps.  The infinity pattern
`0x7F800000` gets `2 ^ 277`, consistently beyond all finite magnitudes. -/
def spos (p : Nat) : Nat :=
  if p / 2 ^ 23 = 0 then p else (2 ^ 23 + p % 2 ^ 23) * 2 ^ (p / 2 ^ 23 - 1)

/-- Signed scaled value of a full 32-bit pattern (value times `2 ^ 149`). -/
def sval (u : Nat) : ℤ :=
  if 2 ^ 31 ≤ u then -(spos (u % 2 ^ 31) : ℤ) else (spos u : ℤ)

/-- NaN: exponent field all ones and nonzero mantissa. -/
def isNaNb (u : Nat) : Bool := decide (2 ^ 23 * 255 < u % 2 ^ 31)

/-- Infinity: exponent field all ones, zero mantissa. -/
def isInfB (u : Nat) : Bool := decide (u % 2 ^ 31 = 2 ^ 23 * 255)

/-- `f32::abs`: clear the sign bit. -/
def fabs (u : Nat) : Nat := u % 2 ^ 31

/-- Unary negation on `f32`: flip the sign bit. -/
def fneg (u : Nat) : Nat := if u < 2 ^ 31 then u + 2 ^ 31 else u - 2 ^ 31

/-- The canonical quiet NaN pattern produced by invalid operations. -/
def qNaN : Nat := 0x7FC00000

/-- IEEE `<` on f32: false when either operand is NaN. -/
def f32Lt (a b : Nat) : Bool := !isNaNb a && !isNaNb b && decide (sval a < sval b)

/-- IEEE `<=` on f32: false when either operand is NaN. -/
def f32Le (a b : Nat) : Bool := !isNaNb a && !isNaNb b && decide (sval a ≤ sval b)

/-- IEEE `==` on f32: false when either operand is NaN; `-0.0 == 0.0`. -/
def f32Eq (a b : Nat) : Bool := !isNaNb a && !isNaNb b && decide (sval a = sval b)

/-- Rust `!=` on f32 (true when either operand is NaN). -/
def f32Ne (a b : Nat) : Bool := !(f32Eq a b)

/-- Rust `f32::min` (IEEE minNum: a NaN operand is ignored). -/
def f32min (a b : Nat) : Nat :=
  if isNaNb a then b else if isNaNb b then a else if f32Lt b a then b else a

/-- Rust `f32::max` (IEEE maxNum: a NaN operand is ignored). -/
def f32max (a b : Nat) : Nat :=
  if isNaNb a then b else if isNaNb b then a else if f32Lt a b then b else a

/-- Fuel-driven base-2 logarithm (structural recursion, so that it reduces
inside the kernel). -/
def log2fuel : Nat → Nat → Nat
  | 0, _ => 0
  | fuel + 1, n => if n ≤ 1 then 0 else log2fuel fuel (n / 2) + 1

/-- Floor of the base-2 logarithm of a natural number. -/
def nlog2 (n : Nat) : Nat := log2fuel n n

/-- Decide `a / b < 2 ^ k` for a positive fraction `a / b`. -/
def ltPow2 (a b : Nat) (k : ℤ) : Bool :=
  if 0 ≤ k then decide (a < 2 ^ k.toNat * b) else decide (a * 2 ^ (-k).toNat < b)

/-- Floor of the base-2 logarithm of a positive fraction `a / b`. -/
def ilog2Frac (a b : Nat) : ℤ :=
  let k : ℤ := (nlog2 a : ℤ) - (nlog2 b : ℤ)
  if ltPow2 a b k then k - 1 else k

/-- Round the fraction `a / b` to the nearest natural number, ties to even. -/
def rneFrac (a b : Nat) : Nat :=
  let n := a / b
  let r := a % b
  if 2 * r < b then n else if b < 2 * r then n + 1 else if n % 2 = 0 then n else n + 1

/-- Round a positive fraction `a / b` to the nearest f32 magnitude pattern
(round-to-nearest, ties to even; gradual underflow; overflow to the infinity
pattern). -/
def roundPosFrac (a b : Nat) : Nat :=
  let e : ℤ := max (ilog2Frac a b) (-126)
  if 127 < e then 2 ^ 23 * 255
  else
    let n := if 23 ≤ e then rneFrac a (b * 2 ^ (e - 23).toNat)
             else rneFrac (a * 2 ^ (23 - e).toNat) b
    if n < 2 ^ 23 then n
    else if n < 2 ^ 24 then (e + 127).toNat * 2 ^ 23 + (n - 2 ^ 23)
    else if e = 127 then 2 ^ 23 * 255
    else (e + 128).toNat * 2 ^ 23

/-- Round the rational `num / den` (with `den ≠ 0`) to an f32 bit pattern.
An exact zero numerator gives `+0.0`; a negative value that underflows gives
`-0.0` (the sign bit survives rounding). -/
def f32FromFrac (num den : ℤ) : Nat :=
  if num = 0 then 0
  else if decide (0 < num) = decide (0 < den) then roundPosFrac num.natAbs den.natAbs
  else 2 ^ 31 + roundPosFrac num.natAbs den.natAbs

/-- IEEE f32 addition (round to nearest, ties to even).  An exact zero sum of
finite operands is `+0.0` except that `(-0.0) + (-0.0) = -0.0`. -/
def fadd (a b : Nat) : Nat :=
  if isNaNb a || isNaNb b then qNaN
  else if isInfB a && isInfB b then
    (if (2 ^ 31 ≤ a ∧ 2 ^ 31 ≤ b) ∨ (a < 2 ^ 31 ∧ b < 2 ^ 31) then a else qNaN)
  else if isInfB a then a
  else if isInfB b then b
  else
    let s := sval a + sval b
    if s = 0 then (if 2 ^ 31 ≤ a ∧ 2 ^ 31 ≤ b then 2 ^ 31 else 0)
    else f32FromFrac s (2 ^ 149)

/-- IEEE f32 subtraction: `a - b = a + (-b)`. -/
def fsub (a b : Nat) : Nat := fadd a (fneg b)

/-- IEEE f32 division. -/
def fdiv (a b : Nat) : Nat :=
  if isNaNb a || isNaNb b then qNaN
  else if isInfB a && isInfB b then qNaN
  else if fabs a = 0 ∧ fabs b = 0 then qNaN
  else
    let sameSign : Bool := decide ((2 ^ 31 ≤ a) ↔ (2 ^ 31 ≤ b))
    if isInfB a || decide (fabs b = 0) then
      (if sameSign then 2 ^ 23 * 255 else 2 ^ 31 + 2 ^ 23 * 255)
    else if isInfB b || decide (fabs a = 0) then (if sameSign then 0 else 2 ^ 31)
    else f32FromFrac (sval a) (sval b)

/-- Rust `%` on f32 (truncated remainder; always exact; a zero result keeps
the sign of the dividend). -/
def frem (a b : Nat) : Nat :=
  if isNaNb a || isNaNb b || isInfB a || decide (fabs b = 0) then qNaN
  else if isInfB b || decide (fabs a = 0) then a
  else
    let r := sval a - Int.tdiv (sval a) (sval b) * sval b
    if r = 0 then (if 2 ^ 31 ≤ a then 2 ^ 31 else 0)
    else f32FromFrac r (2 ^ 149)

/-- Rust `f32::trunc` (round toward zero; a zero result keeps the argument's
sign). -/
def ftrunc (u : Nat) : Nat :=
  if isNaNb u || isInfB u then u
  else if fabs u = 0 then u
  else
    let t := Int.tdiv (sval u) (2 ^ 149)
    if t = 0 then (if 2 ^ 31 ≤ u then 2 ^ 31 else 0)
    else f32FromFrac t 1

/-- Rust `f32::fract`: `self - self.trunc()`. -/
def ffract (u : Nat) : Nat := fsub u (ftrunc u)

/-- `next_f32_up` as written in `src/lib.rs` (note: `f == -0.0` is a numeric
comparison, so it also matches `+0.0`). -/
def next_f32_up_lib (f : Nat) : Nat :=
  if isInfB f && f32Lt 0 f then f
  else if f32Eq f (2 ^ 31) then 0
  else if f32Le 0 f then f + 1 else f - 1

/-- `next_f32_down` as written in `src/lib.rs`. -/
def next_f32_down_lib (f : Nat) : Nat :=
  if isInfB f && f32Lt f 0 then f
  else if f32Eq f 0 then 2 ^ 31
  else if f32Le f (2 ^ 31) then f + 1 else f - 1

/-- `next_f32_up` as written in `src/efloat32.rs`
(the zero test additionally requires the sign bit to be set). -/
def next_f32_up_ef (f : Nat) : Nat :=
  if isInfB f && f32Lt 0 f then f
  else if f32Eq f (2 ^ 31) && decide (2 ^ 31 ≤ f) then 0
  else if f32Le 0 f then f + 1 else f - 1

/-- `next_f32_down` as written in `src/efloat32.rs`. -/
def next_f32_down_ef (f : Nat) : Nat :=
  if isInfB f && f32Lt f 0 then f
  else if f32Eq f 0 && decide (f < 2 ^ 31) then 2 ^ 31
  else if f32Le f (2 ^ 31) then f + 1 else f - 1

/-- The `EFloat32` record: best estimate `v` and interval `[low, high]`
(bit patterns).  The `precise` field exists only under `debug_assertions`
and is omitted. -/
structure EFloat32 where
  v : Nat
  low : Nat
  high : Nat
deriving DecidableEq

/-- `EFloat32::new`. -/
def EFloat32.new (v : Nat) : EFloat32 := ⟨v, v, v⟩

/-- The release-mode part of `EFloat32::check`: unless a bound is infinite
or NaN, `low <= high` must hold (`assert!(self.low <= self.high)`). -/
def checkOk (e : EFloat32) : Bool :=
  !(!isInfB e.low && !isNaNb e.low && !isInfB e.high && !isNaNb e.high)
    || f32Le e.low e.high

/-- `EFloat32::new_with_err` from `src/lib.rs`. -/
def new_with_err_lib (v err : Nat) : EFloat32 :=
  ⟨v, next_f32_down_lib (fsub v err), next_f32_up_lib (fadd v err)⟩

/-- `EFloat32::new_with_err` from `src/efloat32.rs`. -/
def new_with_err_ef (v err : Nat) : EFloat32 :=
  ⟨v, next_f32_down_ef (fsub v err), next_f32_up_ef (fadd v err)⟩

/-- `EFloat32::abs` from `src/lib.rs`.  In the straddling branch the source
computes `-self.low.max(self.high)`, which by Rust operator precedence is
`-(self.low.max(self.high))`. -/
def abs_lib (e : EFloat32) : EFloat32 :=
  if f32Le 0 e.low then e
  else if f32Le e.high 0 then ⟨fneg e.v, fneg e.high, fneg e.low⟩
  else ⟨fabs e.v, 0, fneg (f32max e.low e.high)⟩

/-- `<EFloat32 as Float>::abs` from `src/efloat32.rs`. -/
def abs_ef (e : EFloat32) : EFloat32 :=
  ⟨fabs e.v,
   if f32Lt e.low 0 && f32Lt 0 e.high then 0
   else next_f32_down_ef (f32min (fabs e.low) (fabs e.high)),
   next_f32_up_ef (f32max (fabs e.low) (fabs e.high))⟩

/-- The four corner quotients of interval division, in source order. -/
def divCorners (a b : EFloat32) : Nat × Nat × Nat × Nat :=
  (fdiv a.low b.low, fdiv a.high b.low, fdiv a.low b.high, fdiv a.high b.high)

/-- `<EFloat32 as Div>::div` from `src/lib.rs`. -/
def div_lib (a b : EFloat32) : EFloat32 :=
  if f32Lt b.low 0 && f32Lt 0 b.high then
    ⟨fdiv a.v b.v, 2 ^ 31 + 2 ^ 23 * 255, 2 ^ 23 * 255⟩
  else
    let p := divCorners a b
    ⟨fdiv a.v b.v,
     next_f32_down_lib (f32min (f32min p.1 p.2.1) (f32min p.2.2.1 p.2.2.2)),
     next_f32_up_lib (f32max (f32max p.1 p.2.1) (f32max p.2.2.1 p.2.2.2))⟩

/-- `<EFloat32 as Div>::div` from `src/efloat32.rs`. -/
def div_ef (a b : EFloat32) : EFloat32 :=
  if f32Lt b.low 0 && f32Lt 0 b.high then
    ⟨fdiv a.v b.v, 2 ^ 31 + 2 ^ 23 * 255, 2 ^ 23 * 255⟩
  else
    let p := divCorners a b
    ⟨fdiv a.v b.v,
     next_f32_down_ef (f32min (f32min p.1 p.2.1) (f32min p.2.2.1 p.2.2.2)),
     next_f32_up_ef (f32max (f32max p.1 p.2.1) (f32max p.2.2.1 p.2.2.2))⟩

/-- `<EFloat32 as Rem>::rem` from `src/efloat32.rs`.  Note that in the
straddling-zero branch the source sets `v: self.v / other.v`. -/
def rem_ef (a b : EFloat32) : EFloat32 :=
  if f32Lt b.low 0 && f32Lt 0 b.high then
    ⟨fdiv a.v b.v, 2 ^ 31 + 2 ^ 23 * 255, 2 ^ 23 * 255⟩
  else
    let p0 := frem a.low b.low
    let p1 := frem a.high b.low
    let p2 := frem a.low b.high
    let p3 := frem a.high b.high
    ⟨frem a.v b.v,
     next_f32_down_ef (f32min (f32min p0 p1) (f32min p2 p3)),
     next_f32_up_ef (f32max (f32max p0 p1) (f32max p2 p3))⟩

/-- `<EFloat32 as Float>::fract` from `src/efloat32.rs`. -/
def fract_ef (e : EFloat32) : EFloat32 :=
  if f32Ne (ftrunc e.low) (ftrunc e.high) then
    ⟨ffract e.v, 0, next_f32_down_ef 0x3F800000⟩
  else
    ⟨ffract e.v, ffract e.low, ffract e.high⟩

/-! ### Order structure of bit patterns -/

/-- Monotone index of a pattern: nonnegative patterns keep their value,
negative patterns are reflected.  Two valid patterns share a key only when
they are the two zeros. -/
def key (u : Nat) : ℤ := if 2 ^ 31 ≤ u then (2 ^ 31 : ℤ) - u else u

theorem spos_pos {p : Nat} (h : 0 < p) : 0 < spos p := by
  unfold spos
  by_cases h0 : p / 2 ^ 23 = 0
  · rw [if_pos h0]; exact h
  · rw [if_neg h0]
    exact Nat.mul_pos (by positivity) (Nat.pos_pow_of_pos _ (by norm_num))

theorem spos_eq_zero_iff {p : Nat} : spos p = 0 ↔ p = 0 := by
  constructor
  · intro h
    by_contra hp
    exact absurd h (Nat.pos_iff_ne_zero.mp (spos_pos (Nat.pos_of_ne_zero hp)))
  · rintro rfl; rfl

theorem spos_lt_succ (p : Nat) : spos p < spos (p + 1) := by
  unfold spos
  rcases Nat.lt_or_ge (p + 1) (2 ^ 23) with h | h
  · have h0 : p / 2 ^ 23 = 0 := by omega
    have h1 : (p + 1) / 2 ^ 23 = 0 := by omega
    rw [h0, h1]
    simp
  · rcases Nat.lt_or_ge p (2 ^ 23) with h2 | h2
    · have hp : p = 2 ^ 23 - 1 := by omega
      subst hp
      decide
    · have hne : ¬ p / 2 ^ 23 = 0 := by omega
      have hne1 : ¬ (p + 1) / 2 ^ 23 = 0 := by omega
      have hpos : 0 < 2 ^ (p / 2 ^ 23 - 1) := Nat.pos_pow_of_pos _ (by norm_num)
      rcases Nat.lt_or_ge (p % 2 ^ 23) (2 ^ 23 - 1) with h3 | h3
      · have d1 : (p + 1) / 2 ^ 23 = p / 2 ^ 23 := by omega
        have d2 : (p + 1) % 2 ^ 23 = p % 2 ^ 23 + 1 := by omega
        rw [if_neg hne, if_neg hne1, d1, d2]
        exact mul_lt_mul_of_pos_right (by omega) hpos
      · have hm : p % 2 ^ 23 = 2 ^ 23 - 1 := by omega
        have d1 : (p + 1) / 2 ^ 23 = p / 2 ^ 23 + 1 := by omega
        have d2 : (p + 1) % 2 ^ 23 = 0 := by omega
        rw [if_neg hne, if_neg hne1, d1, d2, hm]
        set c := 2 ^ (p / 2 ^ 23 - 1) with hc
        have hstep : p / 2 ^ 23 + 1 - 1 = (p / 2 ^ 23 - 1) + 1 := by omega
        have h2c : 2 ^ (p / 2 ^ 23 + 1 - 1) = 2 * c := by rw [hstep, pow_succ, hc]; ring
        rw [h2c]
        have hlt : (2 ^ 23 + (2 ^ 23 - 1)) < 2 ^ 23 * 2 := by norm_num
        calc (2 ^ 23 + (2 ^ 23 - 1)) * c < (2 ^ 23 * 2) * c :=
              mul_lt_mul_of_pos_right hlt hpos
          _ = (2 ^ 23 + 0) * (2 * c) := by ring

theorem spos_strictMono : StrictMono spos :=
  strictMono_nat_of_lt_succ spos_lt_succ

theorem sval_of_lt {u : Nat} (h : u < 2 ^ 31) : sval u = (spos u : ℤ) := by
  unfold sval; rw [if_neg (by omega)]

theorem sval_of_ge {u : Nat} (h1 : 2 ^ 31 ≤ u) : sval u = -(spos (u % 2 ^ 31) : ℤ) := by
  unfold sval; rw [if_pos h1]

theorem sval_lt_of_key_lt {u v : Nat} (hu : u < 2 ^ 32) (hv : v < 2 ^ 32)
    (h : key u < key v) : sval u < sval v := by
  unfold key at h
  rcases Nat.lt_or_ge u (2 ^ 31) with hu31 | hu31 <;>
    rcases Nat.lt_or_ge v (2 ^ 31) with hv31 | hv31
  · rw [if_neg (by omega), if_neg (by omega)] at h
    rw [sval_of_lt hu31, sval_of_lt hv31]
    exact_mod_cast spos_strictMono (by exact_mod_cast h)
  · rw [if_neg (by omega), if_pos hv31] at h
    omega
  · rw [if_pos hu31, if_neg (by omega)] at h
    rw [sval_of_ge hu31, sval_of_lt hv31]
    have hm : u % 2 ^ 31 = u - 2 ^ 31 := by omega
    rw [hm]
    rcases Nat.eq_zero_or_pos (u - 2 ^ 31) with h0 | h0
    · have hv0 : 0 < v := by omega
      rw [h0]
      have := spos_pos hv0
      simp [spos_eq_zero_iff.mpr rfl]
      exact_mod_cast this
    · have h1 : 0 < spos (u - 2 ^ 31) := spos_pos h0
      have h2 : 0 ≤ spos v := Nat.zero_le _
      omega
  · rw [if_pos hu31, if_pos hv31] at h
    rw [sval_of_ge hu31, sval_of_ge hv31]
    have hm : u % 2 ^ 31 = u - 2 ^ 31 := by omega
    have hm2 : v % 2 ^ 31 = v - 2 ^ 31 := by omega
    rw [hm, hm2]
    have : v - 2 ^ 31 < u - 2 ^ 31 := by omega
    have := spos_strictMono this
    omega

theorem sval_eq_of_key_eq {u v : Nat} (hu : u < 2 ^ 32) (hv : v < 2 ^ 32)
    (h : key u = key v) : sval u = sval v := by
  unfold key at h
  rcases Nat.lt_or_ge u (2 ^ 31) with hu31 | hu31 <;>
    rcases Nat.lt_or_ge v (2 ^ 31) with hv31 | hv31
  · rw [if_neg (by omega), if_neg (by omega)] at h
    have : u = v := by omega
    rw [this]
  · rw [if_neg (by omega), if_pos hv31] at h
    have h1 : u = 0 := by omega
    have h2 : v = 2 ^ 31 := by omega
    subst h1; subst h2; decide
  · rw [if_pos hu31, if_neg (by omega)] at h
    have h1 : v = 0 := by omega
    have h2 : u = 2 ^ 31 := by omega
    subst h1; subst h2; decide
  · rw [if_pos hu31, if_pos hv31] at h
    have : u = v := by omega
    rw [this]

theorem sval_le_of_key_le {u v : Nat} (hu : u < 2 ^ 32) (hv : v < 2 ^ 32)
    (h : key u ≤ key v) : sval u ≤ sval v := by
  rcases lt_or_eq_of_le h with h1 | h1
  · exact le_of_lt (sval_lt_of_key_lt hu hv h1)
  · exact le_of_eq (sval_eq_of_key_eq hu hv h1)

theorem key_lt_of_sval_lt {u v : Nat} (hu : u < 2 ^ 32) (hv : v < 2 ^ 32)
    (h : sval u < sval v) : key u < key v := by
  by_contra hc
  exact absurd (sval_le_of_key_le hv hu (by omega)) (by omega)


theorem sval_eq_zero_iff {u : Nat} (hu : u < 2 ^ 32) : sval u = 0 ↔ u % 2 ^ 31 = 0 := by
  rcases Nat.lt_or_ge u (2 ^ 31) with h | h
  · rw [sval_of_lt h]
    have hm : u % 2 ^ 31 = u := by omega
    rw [hm]
    constructor
    · intro hz
      exact spos_eq_zero_iff.mp (by exact_mod_cast hz)
    · rintro rfl
      norm_num [spos]
  · rw [sval_of_ge h]
    constructor
    · intro hz
      have hz2 : (spos (u % 2 ^ 31) : ℤ) = 0 := by omega
      exact spos_eq_zero_iff.mp (by exact_mod_cast hz2)
    · intro hz
      rw [hz]
      norm_num [spos]

theorem sval_pos_of {u : Nat} (h : u < 2 ^ 31) (h0 : 0 < u) : 0 < sval u := by
  rw [sval_of_lt h]
  exact_mod_cast spos_pos h0

theorem sval_neg_of {u : Nat} (h : 2 ^ 31 ≤ u) (h0 : u % 2 ^ 31 ≠ 0) : sval u < 0 := by
  rw [sval_of_ge h]
  have : 0 < spos (u % 2 ^ 31) := spos_pos (Nat.pos_of_ne_zero h0)
  omega

/-- All the Bool conditions occurring in the step functions, resolved for a
valid, non-NaN, finite, nonzero pattern. -/
theorem step_conds {u : Nat} (hu : u < 2 ^ 32) (hn : isNaNb u = false)
    (hinf : u % 2 ^ 31 ≠ 2 ^ 23 * 255) (h0 : u % 2 ^ 31 ≠ 0) :
    isInfB u = false ∧ f32Eq u (2 ^ 31) = false ∧ f32Eq u 0 = false ∧
    (u < 2 ^ 31 → f32Le 0 u = true ∧ f32Le u (2 ^ 31) = false) ∧
    (2 ^ 31 ≤ u → f32Le 0 u = false ∧ f32Le u (2 ^ 31) = true) := by
  have hsz : sval u ≠ 0 := fun hz => h0 ((sval_eq_zero_iff hu).mp hz)
  have hInfB : isInfB u = false := by
    unfold isInfB
    simpa using hinf
  have hz0 : sval 0 = 0 := by decide
  have hz31 : sval 2147483648 = 0 := by decide
  have hn0 : isNaNb 0 = false := by decide
  have hn31 : isNaNb 2147483648 = false := by decide
  refine ⟨hInfB, ?_, ?_, ?_, ?_⟩
  · simp [f32Eq, hn, hn31, hz31, hsz]
  · simp [f32Eq, hn, hn0, hz0, hsz]
  · intro hlt
    have hpos : 0 < sval u := sval_pos_of hlt (by omega)
    refine ⟨?_, ?_⟩
    · simp [f32Le, hn, hn0, hz0]
      omega
    · simp [f32Le, hn, hn31, hz31]
      omega
  · intro hge
    have hneg : sval u < 0 := sval_neg_of hge h0
    refine ⟨?_, ?_⟩
    · simp [f32Le, hn, hn0, hz0]
      omega
    · simp [f32Le, hn, hn31, hz31]
      omega

/-- Pattern-level description of `next_f32_up` from `src/efloat32.rs`:
apart from saturation at `+inf` and the `-0.0 -> +0.0` step, it adds one to
nonnegative patterns and subtracts one from negative patterns. -/
theorem next_f32_up_ef_desc {u : Nat} (hu : u < 2 ^ 32) (hn : isNaNb u = false) :
    next_f32_up_ef u =
      if u = 2 ^ 23 * 255 then u
      else if u = 2 ^ 31 then 0
      else if u < 2 ^ 31 then u + 1 else u - 1 := by
  by_cases hinf : u % 2 ^ 31 = 2 ^ 23 * 255
  · have hcase : u = 2 ^ 23 * 255 ∨ u = 2 ^ 31 + 2 ^ 23 * 255 := by omega
    rcases hcase with rfl | rfl
    · decide
    · decide
  · by_cases h0 : u % 2 ^ 31 = 0
    · have hcase : u = 0 ∨ u = 2 ^ 31 := by omega
      rcases hcase with rfl | rfl
      · decide
      · decide
    · obtain ⟨hInfB, hEq31, hEq0, hPos, hNeg⟩ := step_conds hu hn hinf h0
      rcases Nat.lt_or_ge u (2 ^ 31) with hlt | hge
      · obtain ⟨hle1, -⟩ := hPos hlt
        have hLHS : next_f32_up_ef u = u + 1 := by
          unfold next_f32_up_ef
          rw [hInfB, hEq31]
          simp [hle1]
        rw [hLHS, if_neg (by omega), if_neg (by omega), if_pos hlt]
      · obtain ⟨hle1, -⟩ := hNeg hge
        have hLHS : next_f32_up_ef u = u - 1 := by
          unfold next_f32_up_ef
          rw [hInfB, hEq31]
          simp [hle1]
        rw [hLHS, if_neg (by omega), if_neg (by omega), if_neg (by omega)]

/-- Pattern-level description of `next_f32_down` from `src/efloat32.rs`. -/
theorem next_f32_down_ef_desc {u : Nat} (hu : u < 2 ^ 32) (hn : isNaNb u = false) :
    next_f32_down_ef u =
      if u = 2 ^ 31 + 2 ^ 23 * 255 then u
      else if u = 0 then 2 ^ 31
      else if u < 2 ^ 31 then u - 1 else u + 1 := by
  by_cases hinf : u % 2 ^ 31 = 2 ^ 23 * 255
  · have hcase : u = 2 ^ 23 * 255 ∨ u = 2 ^ 31 + 2 ^ 23 * 255 := by omega
    rcases hcase with rfl | rfl
    · decide
    · decide
  · by_cases h0 : u % 2 ^ 31 = 0
    · have hcase : u = 0 ∨ u = 2 ^ 31 := by omega
      rcases hcase with rfl | rfl
      · decide
      · decide
    · obtain ⟨hInfB, hEq31, hEq0, hPos, hNeg⟩ := step_conds hu hn hinf h0
      rcases Nat.lt_or_ge u (2 ^ 31) with hlt | hge
      · obtain ⟨-, hle2⟩ := hPos hlt
        have hLHS : next_f32_down_ef u = u - 1 := by
          unfold next_f32_down_ef
          rw [hInfB, hEq0, hle2]
          simp
        rw [hLHS, if_neg (by omega), if_neg (by omega), if_pos hlt]
      · obtain ⟨-, hle2⟩ := hNeg hge
        have hLHS : next_f32_down_ef u = u + 1 := by
          unfold next_f32_down_ef
          rw [hInfB, hEq0, hle2]
          simp
        rw [hLHS, if_neg (by omega), if_neg (by omega), if_neg (by omega)]

/-- Pattern-level description of `next_f32_up` from `src/lib.rs`: both zero
patterns are sent to `+0.0`. -/
theorem next_f32_up_lib_desc {u : Nat} (hu : u < 2 ^ 32) (hn : isNaNb u = false) :
    next_f32_up_lib u =
      if u = 2 ^ 23 * 255 then u
      else if u = 0 ∨ u = 2 ^ 31 then 0
      else if u < 2 ^ 31 then u + 1 else u - 1 := by
  by_cases hinf : u % 2 ^ 31 = 2 ^ 23 * 255
  · have hcase : u = 2 ^ 23 * 255 ∨ u = 2 ^ 31 + 2 ^ 23 * 255 := by omega
    rcases hcase with rfl | rfl
    · decide
    · decide
  · by_cases h0 : u % 2 ^ 31 = 0
    · have hcase : u = 0 ∨ u = 2 ^ 31 := by omega
      rcases hcase with rfl | rfl
      · decide
      · decide
    · obtain ⟨hInfB, hEq31, hEq0, hPos, hNeg⟩ := step_conds hu hn hinf h0
      rcases Nat.lt_or_ge u (2 ^ 31) with hlt | hge
      · obtain ⟨hle1, -⟩ := hPos hlt
        have hLHS : next_f32_up_lib u = u + 1 := by
          unfold next_f32_up_lib
          rw [hInfB, hEq31]
          simp [hle1]
        rw [hLHS, if_neg (by omega), if_neg (by omega), if_pos hlt]
      · obtain ⟨hle1, -⟩ := hNeg hge
        have hLHS : next_f32_up_lib u = u - 1 := by
          unfold next_f32_up_lib
          rw [hInfB, hEq31]
          simp [hle1]
        rw [hLHS, if_neg (by omega), if_neg (by omega), if_neg (by omega)]

/-- Pattern-level description of `next_f32_down` from `src/lib.rs`: both zero
patterns are sent to `-0.0`. -/
theorem next_f32_down_lib_desc {u : Nat} (hu : u < 2 ^ 32) (hn : isNaNb u = false) :
    next_f32_down_lib u =
      if u = 2 ^ 31 + 2 ^ 23 * 255 then u
      else if u = 0 ∨ u = 2 ^ 31 then 2 ^ 31
      else if u < 2 ^ 31 then u - 1 else u + 1 := by
  by_cases hinf : u % 2 ^ 31 = 2 ^ 23 * 255
  · have hcase : u = 2 ^ 23 * 255 ∨ u = 2 ^ 31 + 2 ^ 23 * 255 := by omega
    rcases hcase with rfl | rfl
    · decide
    · decide
  · by_cases h0 : u % 2 ^ 31 = 0
    · have hcase : u = 0 ∨ u = 2 ^ 31 := by omega
      rcases hcase with rfl | rfl
      · decide
      · decide
    · obtain ⟨hInfB, hEq31, hEq0, hPos, hNeg⟩ := step_conds hu hn hinf h0
      rcases Nat.lt_or_ge u (2 ^ 31) with hlt | hge
      · obtain ⟨-, hle2⟩ := hPos hlt
        have hLHS : next_f32_down_lib u = u - 1 := by
          unfold next_f32_down_lib
          rw [hInfB, hEq0, hle2]
          simp
        rw [hLHS, if_neg (by omega), if_neg (by omega), if_pos hlt]
      · obtain ⟨-, hle2⟩ := hNeg hge
        have hLHS : next_f32_down_lib u = u + 1 := by
          unfold next_f32_down_lib
          rw [hInfB, hEq0, hle2]
          simp
        rw [hLHS, if_neg (by omega), if_neg (by omega), if_neg (by omega)]

/-- Stepping up a finite nonzero non-NaN pattern increments its key and lands
on a valid non-NaN pattern. -/
theorem key_up_ef {u : Nat} (hu : u < 2 ^ 32) (hn : isNaNb u = false)
    (hf : u % 2 ^ 31 ≠ 2 ^ 23 * 255) (h0 : u % 2 ^ 31 ≠ 0) :
    key (next_f32_up_ef u) = key u + 1 ∧ next_f32_up_ef u < 2 ^ 32 ∧
      isNaNb (next_f32_up_ef u) = false := by
  have hn' : ¬ 2 ^ 23 * 255 < u % 2 ^ 31 := by
    intro hc
    exact absurd hn (by unfold isNaNb; simp; omega)
  rw [next_f32_up_ef_desc hu hn, if_neg (by omega), if_neg (by omega)]
  rcases Nat.lt_or_ge u (2 ^ 31) with hlt | hge
  · rw [if_pos hlt]
    refine ⟨?_, by omega, ?_⟩
    · unfold key
      rw [if_neg (by omega), if_neg (by omega)]
      push_cast
      ring
    · unfold isNaNb
      simp
      omega
  · rw [if_neg (by omega)]
    refine ⟨?_, by omega, ?_⟩
    · unfold key
      rw [if_pos (by omega), if_pos hge]
      omega
    · unfold isNaNb
      simp
      omega

/-- Stepping down a finite nonzero non-NaN pattern decrements its key and
lands on a valid non-NaN pattern. -/
theorem key_down_ef {u : Nat} (hu : u < 2 ^ 32) (hn : isNaNb u = false)
    (hf : u % 2 ^ 31 ≠ 2 ^ 23 * 255) (h0 : u % 2 ^ 31 ≠ 0) :
    key (next_f32_down_ef u) = key u - 1 ∧ next_f32_down_ef u < 2 ^ 32 ∧
      isNaNb (next_f32_down_ef u) = false := by
  have hn' : ¬ 2 ^ 23 * 255 < u % 2 ^ 31 := by
    intro hc
    exact absurd hn (by unfold isNaNb; simp; omega)
  rw [next_f32_down_ef_desc hu hn, if_neg (by omega), if_neg (by omega)]
  rcases Nat.lt_or_ge u (2 ^ 31) with hlt | hge
  · rw [if_pos hlt]
    refine ⟨?_, by omega, ?_⟩
    · unfold key
      rw [if_neg (by omega), if_neg (by omega)]
      omega
    · unfold isNaNb
      simp
      omega
  · rw [if_neg (by omega)]
    refine ⟨?_, by omega, ?_⟩
    · unfold key
      rw [if_pos (by omega), if_pos hge]
      omega
    · unfold isNaNb
      simp
      omega

/-- Round-trip property for the efloat32.rs step functions on every finite
nonzero non-NaN pattern. -/
theorem roundtrip_ef {u : Nat} (hu : u < 2 ^ 32) (hn : isNaNb u = false)
    (hf : u % 2 ^ 31 ≠ 2 ^ 23 * 255) (h0 : u % 2 ^ 31 ≠ 0) :
    next_f32_down_ef (next_f32_up_ef u) = u ∧
      next_f32_up_ef (next_f32_down_ef u) = u := by
  have hn' : ¬ 2 ^ 23 * 255 < u % 2 ^ 31 := by
    intro hc
    exact absurd hn (by unfold isNaNb; simp; omega)
  constructor
  · rw [next_f32_up_ef_desc hu hn, if_neg (by omega), if_neg (by omega)]
    rcases Nat.lt_or_ge u (2 ^ 31) with hlt | hge
    · rw [if_pos hlt]
      have hval : u + 1 < 2 ^ 32 := by omega
      have hnan : isNaNb (u + 1) = false := by unfold isNaNb; simp; omega
      rw [next_f32_down_ef_desc hval hnan, if_neg (by omega), if_neg (by omega),
        if_pos (by omega)]
      omega
    · rw [if_neg (by omega)]
      have hval : u - 1 < 2 ^ 32 := by omega
      have hnan : isNaNb (u - 1) = false := by unfold isNaNb; simp; omega
      rw [next_f32_down_ef_desc hval hnan, if_neg (by omega), if_neg (by omega),
        if_neg (by omega)]
      omega
  · rw [next_f32_down_ef_desc hu hn, if_neg (by omega), if_neg (by omega)]
    rcases Nat.lt_or_ge u (2 ^ 31) with hlt | hge
    · rw [if_pos hlt]
      have hval : u - 1 < 2 ^ 32 := by omega
      have hnan : isNaNb (u - 1) = false := by unfold isNaNb; simp; omega
      rw [next_f32_up_ef_desc hval hnan, if_neg (by omega), if_neg (by omega),
        if_pos (by omega)]
      omega
    · rw [if_neg (by omega)]
      have hval : u + 1 < 2 ^ 32 := by omega
      have hnan : isNaNb (u + 1) = false := by unfold isNaNb; simp; omega
      rw [next_f32_up_ef_desc hval hnan, if_neg (by omega), if_neg (by omega),
        if_neg (by omega)]
      omega

/-- Round-trip property for the lib.rs step functions, which additionally
needs the pattern to be at least one step away from both zeros. -/
theorem roundtrip_lib {u : Nat} (hu : u < 2 ^ 32) (hn : isNaNb u = false)
    (hf : u % 2 ^ 31 ≠ 2 ^ 23 * 255) (h0 : u % 2 ^ 31 ≠ 0)
    (h1 : u ≠ 1) (h2 : u ≠ 2 ^ 31 + 1) :
    next_f32_down_lib (next_f32_up_lib u) = u ∧
      next_f32_up_lib (next_f32_down_lib u) = u := by
  have hn' : ¬ 2 ^ 23 * 255 < u % 2 ^ 31 := by
    intro hc
    exact absurd hn (by unfold isNaNb; simp; omega)
  constructor
  · rw [next_f32_up_lib_desc hu hn, if_neg (by omega), if_neg (by omega)]
    rcases Nat.lt_or_ge u (2 ^ 31) with hlt | hge
    · rw [if_pos hlt]
      have hval : u + 1 < 2 ^ 32 := by omega
      have hnan : isNaNb (u + 1) = false := by unfold isNaNb; simp; omega
      rw [next_f32_down_lib_desc hval hnan, if_neg (by omega), if_neg (by omega),
        if_pos (by omega)]
      omega
    · rw [if_neg (by omega)]
      have hval : u - 1 < 2 ^ 32 := by omega
      have hnan : isNaNb (u - 1) = false := by unfold isNaNb; simp; omega
      rw [next_f32_down_lib_desc hval hnan, if_neg (by omega), if_neg (by omega),
        if_neg (by omega)]
      omega
  · rw [next_f32_down_lib_desc hu hn, if_neg (by omega), if_neg (by omega)]
    rcases Nat.lt_or_ge u (2 ^ 31) with hlt | hge
    · rw [if_pos hlt]
      have hval : u - 1 < 2 ^ 32 := by omega
      have hnan : isNaNb (u - 1) = false := by unfold isNaNb; simp; omega
      rw [next_f32_up_lib_desc hval hnan, if_neg (by omega), if_neg (by omega),
        if_pos (by omega)]
      omega
    · rw [if_neg (by omega)]
      have hval : u + 1 < 2 ^ 32 := by omega
      have hnan : isNaNb (u + 1) = false := by unfold isNaNb; simp; omega
      rw [next_f32_up_lib_desc hval hnan, if_neg (by omega), if_neg (by omega),
        if_neg (by omega)]
      omega

/-- The two snapshots of `next_f32_up` agree on every valid non-NaN pattern
except `+0.0`. -/
theorem up_agree {u : Nat} (hu : u < 2 ^ 32) (hn : isNaNb u = false)
    (h0 : u ≠ 0) : next_f32_up_lib u = next_f32_up_ef u := by
  by_cases h31 : u = 2 ^ 31
  · subst h31; decide
  · rw [next_f32_up_lib_desc hu hn, next_f32_up_ef_desc hu hn]
    by_cases h1 : u = 2 ^ 23 * 255
    · rw [if_pos h1, if_pos h1]
    · rw [if_neg h1, if_neg h1, if_neg (fun hc => hc.elim h0 h31), if_neg h31]

/-- The two snapshots of `next_f32_down` agree on every valid non-NaN pattern
except `-0.0`. -/
theorem down_agree {u : Nat} (hu : u < 2 ^ 32) (hn : isNaNb u = false)
    (h31 : u ≠ 2 ^ 31) : next_f32_down_lib u = next_f32_down_ef u := by
  by_cases h0 : u = 0
  · subst h0; decide
  · rw [next_f32_down_lib_desc hu hn, next_f32_down_ef_desc hu hn]
    by_cases h1 : u = 2 ^ 31 + 2 ^ 23 * 255
    · rw [if_pos h1, if_pos h1]
    · rw [if_neg h1, if_neg h1, if_neg (fun hc => hc.elim h0 h31), if_neg h0]

theorem f32min_eq_or (a b : Nat) : f32min a b = a ∨ f32min a b = b := by
  unfold f32min
  split_ifs <;> simp

theorem f32max_eq_or (a b : Nat) : f32max a b = a ∨ f32max a b = b := by
  unfold f32max
  split_ifs <;> simp

theorem f32min_nan {a b : Nat} (ha : isNaNb a = false) (hb : isNaNb b = false) :
    isNaNb (f32min a b) = false := by
  rcases f32min_eq_or a b with h | h <;> rw [h] <;> assumption

theorem f32max_nan {a b : Nat} (ha : isNaNb a = false) (hb : isNaNb b = false) :
    isNaNb (f32max a b) = false := by
  rcases f32max_eq_or a b with h | h <;> rw [h] <;> assumption

theorem f32min_le {a b : Nat} (ha : isNaNb a = false) (hb : isNaNb b = false) :
    sval (f32min a b) ≤ sval a ∧ sval (f32min a b) ≤ sval b := by
  have hL : f32Lt b a = decide (sval b < sval a) := by
    unfold f32Lt
    rw [ha, hb]
    simp
  unfold f32min
  rw [ha, hb, hL]
  simp only [Bool.false_eq_true, if_false]
  by_cases h : sval b < sval a
  · rw [if_pos (by simpa using h)]
    exact ⟨le_of_lt h, le_refl _⟩
  · rw [if_neg (by simpa using h)]
    exact ⟨le_refl _, le_of_not_lt h⟩

theorem f32max_ge {a b : Nat} (ha : isNaNb a = false) (hb : isNaNb b = false) :
    sval a ≤ sval (f32max a b) ∧ sval b ≤ sval (f32max a b) := by
  have hL : f32Lt a b = decide (sval a < sval b) := by
    unfold f32Lt
    rw [ha, hb]
    simp
  unfold f32max
  rw [ha, hb, hL]
  simp only [Bool.false_eq_true, if_false]
  by_cases h : sval a < sval b
  · rw [if_pos (by simpa using h)]
    exact ⟨le_of_lt h, le_refl _⟩
  · rw [if_neg (by simpa using h)]
    exact ⟨le_refl _, le_of_not_lt h⟩

/-- The source's four-way minimum chain `p0.min(p1).min(p2.min(p3))` really
is a minimum when no corner is NaN: it returns one of the corners and lies
below all of them. -/
theorem min4_spec {p0 p1 p2 p3 : Nat} (h0 : isNaNb p0 = false)
    (h1 : isNaNb p1 = false) (h2 : isNaNb p2 = false) (h3 : isNaNb p3 = false) :
    (f32min (f32min p0 p1) (f32min p2 p3) = p0 ∨
     f32min (f32min p0 p1) (f32min p2 p3) = p1 ∨
     f32min (f32min p0 p1) (f32min p2 p3) = p2 ∨
     f32min (f32min p0 p1) (f32min p2 p3) = p3) ∧
    isNaNb (f32min (f32min p0 p1) (f32min p2 p3)) = false ∧
    sval (f32min (f32min p0 p1) (f32min p2 p3)) ≤ sval p0 ∧
    sval (f32min (f32min p0 p1) (f32min p2 p3)) ≤ sval p1 ∧
    sval (f32min (f32min p0 p1) (f32min p2 p3)) ≤ sval p2 ∧
    sval (f32min (f32min p0 p1) (f32min p2 p3)) ≤ sval p3 := by
  have hA := f32min_nan h0 h1
  have hB := f32min_nan h2 h3
  have hAB := f32min_nan hA hB
  obtain ⟨l1, l2⟩ := f32min_le h0 h1
  obtain ⟨l3, l4⟩ := f32min_le h2 h3
  obtain ⟨l5, l6⟩ := f32min_le hA hB
  refine ⟨?_, hAB, by omega, by omega, by omega, by omega⟩
  rcases f32min_eq_or (f32min p0 p1) (f32min p2 p3) with h | h <;> rw [h]
  · rcases f32min_eq_or p0 p1 with h' | h' <;> rw [h'] <;> simp
  · rcases f32min_eq_or p2 p3 with h' | h' <;> rw [h'] <;> simp

/-- The source's four-way maximum chain, dually. -/
theorem max4_spec {p0 p1 p2 p3 : Nat} (h0 : isNaNb p0 = false)
    (h1 : isNaNb p1 = false) (h2 : isNaNb p2 = false) (h3 : isNaNb p3 = false) :
    (f32max (f32max p0 p1) (f32max p2 p3) = p0 ∨
     f32max (f32max p0 p1) (f32max p2 p3) = p1 ∨
     f32max (f32max p0 p1) (f32max p2 p3) = p2 ∨
     f32max (f32max p0 p1) (f32max p2 p3) = p3) ∧
    isNaNb (f32max (f32max p0 p1) (f32max p2 p3)) = false ∧
    sval p0 ≤ sval (f32max (f32max p0 p1) (f32max p2 p3)) ∧
    sval p1 ≤ sval (f32max (f32max p0 p1) (f32max p2 p3)) ∧
    sval p2 ≤ sval (f32max (f32max p0 p1) (f32max p2 p3)) ∧
    sval p3 ≤ sval (f32max (f32max p0 p1) (f32max p2 p3)) := by
  have hA := f32max_nan h0 h1
  have hB := f32max_nan h2 h3
  have hAB := f32max_nan hA hB
  obtain ⟨l1, l2⟩ := f32max_ge h0 h1
  obtain ⟨l3, l4⟩ := f32max_ge h2 h3
  obtain ⟨l5, l6⟩ := f32max_ge hA hB
  refine ⟨?_, hAB, by omega, by omega, by omega, by omega⟩
  rcases f32max_eq_or (f32max p0 p1) (f32max p2 p3) with h | h <;> rw [h]
  · rcases f32max_eq_or p0 p1 with h' | h' <;> rw [h'] <;> simp
  · rcases f32max_eq_or p2 p3 with h' | h' <;> rw [h'] <;> simp

/-! ### Claim theorems -/

/-- C1: the claimed invariant `low <= high` for every operation result is
broken by the code itself: for the straddling interval `[-1.0, 2.0]` (which
satisfies the invariant, both bounds finite and non-NaN), `EFloat32::abs`
from `src/lib.rs` produces `low = 0.0`, `high = -(max(-1.0, 2.0)) = -2.0`:
both result bounds are finite and non-NaN yet `low <= high` fails, so the
internal `check` assertion aborts. -/
theorem c1_lib_abs_breaks_invariant :
    checkOk ⟨0x3F800000, 0xBF800000, 0x40000000⟩ = true ∧
    abs_lib ⟨0x3F800000, 0xBF800000, 0x40000000⟩ = ⟨0x3F800000, 0, 0xC0000000⟩ ∧
    isNaNb 0 = false ∧ isInfB 0 = false ∧
    isNaNb 0xC0000000 = false ∧ isInfB 0xC0000000 = false ∧
    f32Le 0 0xC0000000 = false ∧
    checkOk (abs_lib ⟨0x3F800000, 0xBF800000, 0x40000000⟩) = false := by
  decide

/-- C2: on the spec's own scenario `abs [-2.0, 3.0]`, `src/lib.rs` computes
`high = -(max(-2.0, 3.0)) = -3.0` (Rust precedence slip) and fails its own
`check`, instead of returning `high = max(|low|, |high|) = 3.0`; the
`src/efloat32.rs` snapshot returns `low = 0.0` but
`high = next_up(3.0) = 0x40400001`, which is at least `3.0` yet not equal to
`max(|low|, |high|)`. -/
theorem c2_abs_straddle_divergence :
    abs_lib ⟨0x3F800000, 0xC0000000, 0x40400000⟩ = ⟨0x3F800000, 0, 0xC0400000⟩ ∧
    checkOk (abs_lib ⟨0x3F800000, 0xC0000000, 0x40400000⟩) = false ∧
    f32max (fabs 0xC0000000) (fabs 0x40400000) = 0x40400000 ∧
    abs_ef ⟨0x3F800000, 0xC0000000, 0x40400000⟩ = ⟨0x3F800000, 0, 0x40400001⟩ ∧
    (0x40400001 : Nat) ≠ 0x40400000 ∧
    (3 * 2 ^ 149 : ℤ) ≤ sval 0x40400001 ∧ sval 0x40400000 = 3 * 2 ^ 149 := by
  decide

/-- C3: dividing by an interval that straddles zero yields the bounds
`(-inf, +inf)` in both snapshots; otherwise, provided no corner quotient is
NaN, the low bound is `next_down` of a corner quotient that is a true minimum
of the four and the high bound is `next_up` of a true maximum corner. -/
theorem c3_div_bounds (a b : EFloat32) :
    ((f32Lt b.low 0 && f32Lt 0 b.high) = true →
      (div_lib a b).low = 0xFF800000 ∧ (div_lib a b).high = 0x7F800000 ∧
      (div_ef a b).low = 0xFF800000 ∧ (div_ef a b).high = 0x7F800000) ∧
    ((f32Lt b.low 0 && f32Lt 0 b.high) = false →
      isNaNb (fdiv a.low b.low) = false → isNaNb (fdiv a.high b.low) = false →
      isNaNb (fdiv a.low b.high) = false → isNaNb (fdiv a.high b.high) = false →
      ∃ m M : Nat,
        (m = fdiv a.low b.low ∨ m = fdiv a.high b.low ∨
         m = fdiv a.low b.high ∨ m = fdiv a.high b.high) ∧
        (M = fdiv a.low b.low ∨ M = fdiv a.high b.low ∨
         M = fdiv a.low b.high ∨ M = fdiv a.high b.high) ∧
        sval m ≤ sval (fdiv a.low b.low) ∧ sval m ≤ sval (fdiv a.high b.low) ∧
        sval m ≤ sval (fdiv a.low b.high) ∧ sval m ≤ sval (fdiv a.high b.high) ∧
        sval (fdiv a.low b.low) ≤ sval M ∧ sval (fdiv a.high b.low) ≤ sval M ∧
        sval (fdiv a.low b.high) ≤ sval M ∧ sval (fdiv a.high b.high) ≤ sval M ∧
        (div_lib a b).low = next_f32_down_lib m ∧
        (div_lib a b).high = next_f32_up_lib M ∧
        (div_ef a b).low = next_f32_down_ef m ∧
        (div_ef a b).high = next_f32_up_ef M) := by
  constructor
  · intro h
    unfold div_lib div_ef
    rw [h]
    refine ⟨by norm_num, by norm_num, by norm_num, by norm_num⟩
  · intro h h0 h1 h2 h3
    obtain ⟨hmem, -, hm0, hm1, hm2, hm3⟩ := min4_spec h0 h1 h2 h3
    obtain ⟨hMem, -, hM0, hM1, hM2, hM3⟩ := max4_spec h0 h1 h2 h3
    refine ⟨_, _, hmem, hMem, hm0, hm1, hm2, hm3, hM0, hM1, hM2, hM3,
      ?_, ?_, ?_, ?_⟩
    · unfold div_lib divCorners
      rw [h]
      simp
    · unfold div_lib divCorners
      rw [h]
      simp
    · unfold div_ef divCorners
      rw [h]
      simp
    · unfold div_ef divCorners
      rw [h]
      simp

theorem c3_div_bounds_witness :
    (div_lib ⟨0x3F800000, 0x3F800000, 0x3F800000⟩ ⟨0x40000000, 0xBF800000, 0x3F800000⟩).low
        = 0xFF800000 ∧
    (div_ef ⟨0x3F800000, 0x3F800000, 0x3F800000⟩ ⟨0x40000000, 0xBF800000, 0x3F800000⟩).high
        = 0x7F800000 ∧
    (∃ m M : Nat,
      (m = fdiv 0x3F800000 0x40000000 ∨ m = fdiv 0x3F800000 0x40000000 ∨
       m = fdiv 0x3F800000 0x40000000 ∨ m = fdiv 0x3F800000 0x40000000) ∧
      (M = fdiv 0x3F800000 0x40000000 ∨ M = fdiv 0x3F800000 0x40000000 ∨
       M = fdiv 0x3F800000 0x40000000 ∨ M = fdiv 0x3F800000 0x40000000) ∧
      sval m ≤ sval (fdiv 0x3F800000 0x40000000) ∧
      sval m ≤ sval (fdiv 0x3F800000 0x40000000) ∧
      sval m ≤ sval (fdiv 0x3F800000 0x40000000) ∧
      sval m ≤ sval (fdiv 0x3F800000 0x40000000) ∧
      sval (fdiv 0x3F800000 0x40000000) ≤ sval M ∧
      sval (fdiv 0x3F800000 0x40000000) ≤ sval M ∧
      sval (fdiv 0x3F800000 0x40000000) ≤ sval M ∧
      sval (fdiv 0x3F800000 0x40000000) ≤ sval M ∧
      (div_lib ⟨0x3F800000, 0x3F800000, 0x3F800000⟩
          ⟨0x40000000, 0x40000000, 0x40000000⟩).low = next_f32_down_lib m ∧
      (div_lib ⟨0x3F800000, 0x3F800000, 0x3F800000⟩
          ⟨0x40000000, 0x40000000, 0x40000000⟩).high = next_f32_up_lib M ∧
      (div_ef ⟨0x3F800000, 0x3F800000, 0x3F800000⟩
          ⟨0x40000000, 0x40000000, 0x40000000⟩).low = next_f32_down_ef m ∧
      (div_ef ⟨0x3F800000, 0x3F800000, 0x3F800000⟩
          ⟨0x40000000, 0x40000000, 0x40000000⟩).high = next_f32_up_ef M) :=
  ⟨((c3_div_bounds ⟨0x3F800000, 0x3F800000, 0x3F800000⟩
        ⟨0x40000000, 0xBF800000, 0x3F800000⟩).1 (by decide)).1,
   ((c3_div_bounds ⟨0x3F800000, 0x3F800000, 0x3F800000⟩
        ⟨0x40000000, 0xBF800000, 0x3F800000⟩).1 (by decide)).2.2.2,
   (c3_div_bounds ⟨0x3F800000, 0x3F800000, 0x3F800000⟩
        ⟨0x40000000, 0x40000000, 0x40000000⟩).2 (by decide) (by decide)
     (by decide) (by decide) (by decide)⟩

/-- C4 (amended): for every valid, finite, non-NaN pattern other than the two
zeros, `next_f32_up` returns the least representable (non-NaN) value strictly
above the argument and `next_f32_down` the greatest strictly below it, in the
numeric order of decoded values; on these inputs the two snapshots agree
bit-for-bit.  (At `+0.0`, `next_f32_down` of both snapshots returns `-0.0`,
which is not strictly below `+0.0` — see the counterexample.) -/
theorem c4_step_successor (u : Nat) (hu : u < 2 ^ 32) (hn : isNaNb u = false)
    (hf : u % 2 ^ 31 ≠ 2 ^ 23 * 255) (h0 : u % 2 ^ 31 ≠ 0) :
    (sval u < sval (next_f32_up_ef u) ∧
      ∀ y, y < 2 ^ 32 → isNaNb y = false → sval u < sval y →
        sval (next_f32_up_ef u) ≤ sval y) ∧
    (sval (next_f32_down_ef u) < sval u ∧
      ∀ y, y < 2 ^ 32 → isNaNb y = false → sval y < sval u →
        sval y ≤ sval (next_f32_down_ef u)) ∧
    isNaNb (next_f32_up_ef u) = false ∧ isNaNb (next_f32_down_ef u) = false ∧
    next_f32_up_lib u = next_f32_up_ef u ∧
    next_f32_down_lib u = next_f32_down_ef u := by
  obtain ⟨hk, hv, hnan⟩ := key_up_ef hu hn hf h0
  obtain ⟨hk2, hv2, hnan2⟩ := key_down_ef hu hn hf h0
  refine ⟨⟨?_, ?_⟩, ⟨?_, ?_⟩, hnan, hnan2,
    up_agree hu hn (by omega), down_agree hu hn (by omega)⟩
  · exact sval_lt_of_key_lt hu hv (by omega)
  · intro y hy hyn hlt
    have h1 := key_lt_of_sval_lt hu hy hlt
    exact sval_le_of_key_le hv hy (by omega)
  · exact sval_lt_of_key_lt hv2 hu (by omega)
  · intro y hy hyn hlt
    have h1 := key_lt_of_sval_lt hy hu hlt
    exact sval_le_of_key_le hy hv2 (by omega)

theorem c4_step_successor_witness :
    sval 0x3F800000 < sval (next_f32_up_ef 0x3F800000) ∧
    sval (next_f32_up_ef 0x3F800000) ≤ sval 0x3F800001 ∧
    sval 0x3F7FFFFF ≤ sval (next_f32_down_ef 0x3F800000) :=
  ⟨(c4_step_successor 0x3F800000 (by decide) (by decide) (by decide)
      (by decide)).1.1,
   (c4_step_successor 0x3F800000 (by decide) (by decide) (by decide)
      (by decide)).1.2 0x3F800001 (by decide) (by decide) (by decide),
   (c4_step_successor 0x3F800000 (by decide) (by decide) (by decide)
      (by decide)).2.1.2 0x3F7FFFFF (by decide) (by decide) (by decide)⟩

/-- C4 counterexample: `+0.0` is finite, non-NaN and not the excluded
`next_up(-0.0)` case, yet `next_f32_down(+0.0)` is `-0.0` in both snapshots,
which is numerically equal to `+0.0`, not strictly less — even though a
representable value strictly below `+0.0` exists (`-minsubnormal`). -/
theorem c4_down_at_poszero_counterexample :
    isNaNb 0 = false ∧ isInfB 0 = false ∧
    next_f32_down_lib 0 = 0x80000000 ∧ next_f32_down_ef 0 = 0x80000000 ∧
    ¬ sval 0x80000000 < sval 0 ∧
    isNaNb 0x80000001 = false ∧ sval 0x80000001 < sval 0 := by
  decide

/-- C5 (amended): for the `src/efloat32.rs` step functions the round trips
`down (up x) = x` and `up (down x) = x` hold for every valid finite nonzero
non-NaN pattern; the `src/lib.rs` versions need the input to also differ from
`± minsubnormal` (patterns `1` and `2 ^ 31 + 1`), where one direction
collapses through a zero. -/
theorem c5_roundtrip (u : Nat) (hu : u < 2 ^ 32) (hn : isNaNb u = false)
    (hf : u % 2 ^ 31 ≠ 2 ^ 23 * 255) (h0 : u % 2 ^ 31 ≠ 0) :
    (next_f32_down_ef (next_f32_up_ef u) = u ∧
      next_f32_up_ef (next_f32_down_ef u) = u) ∧
    (u ≠ 1 → u ≠ 2 ^ 31 + 1 →
      next_f32_down_lib (next_f32_up_lib u) = u ∧
        next_f32_up_lib (next_f32_down_lib u) = u) :=
  ⟨roundtrip_ef hu hn hf h0, fun h1 h2 => roundtrip_lib hu hn hf h0 h1 h2⟩

theorem c5_roundtrip_witness :
    next_f32_down_ef (next_f32_up_ef 0x3F800000) = 0x3F800000 ∧
    next_f32_up_ef (next_f32_down_ef 0x3F800000) = 0x3F800000 ∧
    next_f32_down_lib (next_f32_up_lib 0x3F800000) = 0x3F800000 :=
  ⟨(c5_roundtrip 0x3F800000 (by decide) (by decide) (by decide) (by decide)).1.1,
   (c5_roundtrip 0x3F800000 (by decide) (by decide) (by decide) (by decide)).1.2,
   ((c5_roundtrip 0x3F800000 (by decide) (by decide) (by decide) (by decide)).2
      (by decide) (by decide)).1⟩

/-- C5 counterexample: the smallest positive subnormal (pattern `1`) is
finite and nonzero, but with the `src/lib.rs` definitions
`next_up(next_down(minsub)) = next_up(+0.0) = +0.0 ≠ minsub`. -/
theorem c5_lib_minsub_counterexample :
    isNaNb 1 = false ∧ isInfB 1 = false ∧ (1 : Nat) % 2 ^ 31 ≠ 0 ∧
    next_f32_down_lib 1 = 0 ∧ next_f32_up_lib (next_f32_down_lib 1) = 0 ∧
    next_f32_up_lib (next_f32_down_lib 1) ≠ 1 := by
  decide

/-- C6: `new_with_err` builds exactly the interval
`[next_down(value - err), next_up(value + err)]` around the untouched best
estimate (both snapshots); concretely, `new_with_err(1.0, 0.001)` has
`low = 0x3F7FBE76`, one ULP strictly below the f32 literal `0.999`
(`0x3F7FBE77`), and `high = 0x3F8020C6`, one ULP strictly above the f32
literal `1.001` (`0x3F8020C5`). -/
theorem c6_new_with_err :
    (∀ v err : Nat,
      new_with_err_lib v err =
        ⟨v, next_f32_down_lib (fsub v err), next_f32_up_lib (fadd v err)⟩ ∧
      new_with_err_ef v err =
        ⟨v, next_f32_down_ef (fsub v err), next_f32_up_ef (fadd v err)⟩) ∧
    new_with_err_lib 0x3F800000 0x3A83126F = ⟨0x3F800000, 0x3F7FBE76, 0x3F8020C6⟩ ∧
    new_with_err_ef 0x3F800000 0x3A83126F = ⟨0x3F800000, 0x3F7FBE76, 0x3F8020C6⟩ ∧
    fsub 0x3F800000 0x3A83126F = 0x3F7FBE77 ∧
    fadd 0x3F800000 0x3A83126F = 0x3F8020C5 ∧
    next_f32_down_ef 0x3F7FBE77 = 0x3F7FBE76 ∧
    next_f32_up_ef 0x3F8020C5 = 0x3F8020C6 ∧
    sval 0x3F7FBE76 < sval 0x3F7FBE77 ∧
    sval 0x3F8020C5 < sval 0x3F8020C6 := by
  refine ⟨fun v err => ⟨rfl, rfl⟩, ?_, ?_, ?_, ?_, ?_, ?_, ?_, ?_⟩ <;> decide

/-- C7: `fract` returns `low = 0.0` and `high = next_down(1.0)` exactly when
the truncations of the two bounds differ (Rust `!=`), and applies the
fractional part pointwise otherwise; `next_down(1.0) = 0x3F7FFFFF` is the
greatest representable value strictly below `1.0`. -/
theorem c7_fract (e : EFloat32) :
    (f32Ne (ftrunc e.low) (ftrunc e.high) = true →
      fract_ef e = ⟨ffract e.v, 0, next_f32_down_ef 0x3F800000⟩ ∧
      next_f32_down_ef 0x3F800000 = 0x3F7FFFFF ∧
      sval 0x3F7FFFFF < sval 0x3F800000 ∧
      (∀ y, y < 2 ^ 32 → isNaNb y = false → sval y < sval 0x3F800000 →
        sval y ≤ sval 0x3F7FFFFF)) ∧
    (f32Ne (ftrunc e.low) (ftrunc e.high) = false →
      fract_ef e = ⟨ffract e.v, ffract e.low, ffract e.high⟩) := by
  constructor
  · intro h
    refine ⟨?_, by decide, by decide, ?_⟩
    · unfold fract_ef
      rw [h]
      simp
    · intro y hy hyn hlt
      have hval : (0x3F800000 : Nat) < 2 ^ 32 := by norm_num
      have hval2 : (0x3F7FFFFF : Nat) < 2 ^ 32 := by norm_num
      have h1 := key_lt_of_sval_lt hy hval hlt
      have hk1 : key 0x3F800000 = 0x3F800000 := by decide
      have hk2 : key 0x3F7FFFFF = 0x3F7FFFFF := by decide
      exact sval_le_of_key_le hy hval2 (by omega)
  · intro h
    unfold fract_ef
    rw [h]
    simp

theorem c7_fract_witness :
    f32Ne (ftrunc 0x40200000) (ftrunc 0x40600000) = true ∧
    fract_ef ⟨0x40400000, 0x40200000, 0x40600000⟩ =
      ⟨ffract 0x40400000, 0, next_f32_down_ef 0x3F800000⟩ ∧
    next_f32_down_ef 0x3F800000 = 0x3F7FFFFF :=
  ⟨by decide,
   ((c7_fract ⟨0x40400000, 0x40200000, 0x40600000⟩).1 (by decide)).1,
   ((c7_fract ⟨0x40400000, 0x40200000, 0x40600000⟩).1 (by decide)).2.1⟩

/-- C8: in the straddling-zero branch, `<EFloat32 as Rem>::rem` sets the
best-estimate value to `self.v / other.v`, not `self.v % other.v`: with
dividend `5.0` (exact) and divisor value `2.0` carried by the straddling
interval `[-1.0, 3.0]`, the result's value field is `2.5 = 5.0 / 2.0`,
whereas `5.0 % 2.0 = 1.0`. -/
theorem c8_rem_straddle_value_is_quotient :
    f32Lt 0xBF800000 0 = true ∧ f32Lt 0 0x40400000 = true ∧
    rem_ef ⟨0x40A00000, 0x40A00000, 0x40A00000⟩ ⟨0x40000000, 0xBF800000, 0x40400000⟩
      = ⟨0x40200000, 0xFF800000, 0x7F800000⟩ ∧
    fdiv 0x40A00000 0x40000000 = 0x40200000 ∧
    frem 0x40A00000 0x40000000 = 0x3F800000 ∧
    (0x40200000 : Nat) ≠ 0x3F800000 := by
  decide

/-- C9: `next_f32_up(-0.0) = +0.0` and `next_f32_down(+0.0) = -0.0` with the
exact bit patterns of the opposite-signed zeros, and the step functions
saturate at the matching infinity — in both snapshots. -/
theorem c9_zero_and_infinity_steps :
    next_f32_up_lib 0x80000000 = 0 ∧ next_f32_up_ef 0x80000000 = 0 ∧
    next_f32_down_lib 0 = 0x80000000 ∧ next_f32_down_ef 0 = 0x80000000 ∧
    next_f32_up_lib 0x7F800000 = 0x7F800000 ∧
    next_f32_up_ef 0x7F800000 = 0x7F800000 ∧
    next_f32_down_lib 0xFF800000 = 0xFF800000 ∧
    next_f32_down_ef 0xFF800000 = 0xFF800000 := by
  decide

/-- C10 (amended): on every valid non-NaN input the two snapshots' step
functions return bit-identical results, except `next_f32_up` at `+0.0` (where
lib.rs returns `+0.0` and efloat32.rs returns the smallest subnormal) and
`next_f32_down` at `-0.0` (where lib.rs returns `-0.0` and efloat32.rs
returns `-minsubnormal`). -/
theorem c10_snapshots_agree (u : Nat) (hu : u < 2 ^ 32) (hn : isNaNb u = false) :
    (u ≠ 0 → next_f32_up_lib u = next_f32_up_ef u) ∧
    (u ≠ 2 ^ 31 → next_f32_down_lib u = next_f32_down_ef u) :=
  ⟨fun h0 => up_agree hu hn h0, fun h31 => down_agree hu hn h31⟩

theorem c10_snapshots_agree_witness :
    next_f32_up_lib 0x3F800000 = next_f32_up_ef 0x3F800000 ∧
    next_f32_down_lib 0x3F800000 = next_f32_down_ef 0x3F800000 :=
  ⟨(c10_snapshots_agree 0x3F800000 (by decide) (by decide)).1 (by decide),
   (c10_snapshots_agree 0x3F800000 (by decide) (by decide)).2 (by decide)⟩

/-- C10 counterexample: at the non-NaN input `+0.0` the two snapshots of
`next_f32_up` differ bit-for-bit. -/
theorem c10_up_at_zero_counterexample :
    isNaNb 0 = false ∧ next_f32_up_lib 0 = 0 ∧ next_f32_up_ef 0 = 1 ∧
    next_f32_up_lib 0 ≠ next_f32_up_ef 0 := by
  decide
